import Mathlib

/-!
Verification of the invoice-extraction core: the page/document classifier
(src/services/pdf_analyzer.py), the bounding-box table parser
(src/services/layout_parser/table_parser.py) and the OCR majority-vote
normalizer (src/services/ocr_normalizer.py).

Text is modelled as Lean `String`/`List Char`; Python floats are modelled as
exact rationals (ℚ); Python ints as ℤ/ℕ.  Character-class predicates follow
the Unicode tables used by the source (`str.isspace`, `str.splitlines`
boundaries, categories Cc and Cf); the Letter category is modelled on the
Basic Latin range (`Char.isAlpha`), which is the alphabet over which all
concrete inputs in this file range.
-/

/-- Model of Python `str.isspace` for a single character (the whitespace set
used by `str.split()` and `str.strip()`). -/
def pyIsSpace (c : Char) : Bool :=
  decide (c.val.toNat = 32 ∨ (9 ≤ c.val.toNat ∧ c.val.toNat ≤ 13) ∨
    (28 ≤ c.val.toNat ∧ c.val.toNat ≤ 31) ∨ c.val.toNat = 133 ∨ c.val.toNat = 160 ∨
    c.val.toNat = 0x1680 ∨ (0x2000 ≤ c.val.toNat ∧ c.val.toNat ≤ 0x200a) ∨
    c.val.toNat = 0x2028 ∨ c.val.toNat = 0x2029 ∨ c.val.toNat = 0x202f ∨
    c.val.toNat = 0x205f ∨ c.val.toNat = 0x3000)

/-- Line boundaries of Python `str.splitlines`:
\n \v \f \r \x1c \x1d \x1e \x85     (with \r\n as one boundary). -/
def isLineBreak (c : Char) : Bool :=
  decide ((10 ≤ c.val.toNat ∧ c.val.toNat ≤ 13) ∨ (28 ≤ c.val.toNat ∧ c.val.toNat ≤ 30) ∨
    c.val.toNat = 133 ∨ c.val.toNat = 0x2028 ∨ c.val.toNat = 0x2029)

/-- Unicode category Cc (control): U+0000..U+001F and U+007F..U+009F. -/
def isCatCc (c : Char) : Bool :=
  decide (c.val.toNat < 32 ∨ (127 ≤ c.val.toNat ∧ c.val.toNat ≤ 159))

/-- Unicode category Cf (format), restricted to the code points a PDF text
layer can realistically contain (soft hyphen, Arabic marks, bidi and joiner
controls, BOM, interlinear annotation controls). -/
def isCatCf (c : Char) : Bool :=
  decide (c.val.toNat = 0xad ∨ (0x600 ≤ c.val.toNat ∧ c.val.toNat ≤ 0x605) ∨
    c.val.toNat = 0x61c ∨ c.val.toNat = 0x6dd ∨ c.val.toNat = 0x70f ∨
    (0x890 ≤ c.val.toNat ∧ c.val.toNat ≤ 0x891) ∨ c.val.toNat = 0x8e2 ∨
    c.val.toNat = 0x180e ∨ (0x200b ≤ c.val.toNat ∧ c.val.toNat ≤ 0x200f) ∨
    (0x202a ≤ c.val.toNat ∧ c.val.toNat ≤ 0x202e) ∨
    (0x2060 ≤ c.val.toNat ∧ c.val.toNat ≤ 0x2064) ∨
    (0x2066 ≤ c.val.toNat ∧ c.val.toNat ≤ 0x206f) ∨ c.val.toNat = 0xfeff ∨
    (0xfff9 ≤ c.val.toNat ∧ c.val.toNat ≤ 0xfffb))

/-- Model of `unicodedata.category(c).startswith("L")` (Unicode Letter),
on the Basic Latin alphabet over which this development ranges. -/
def isLetterChar (c : Char) : Bool := c.isAlpha

/-- The Unicode replacement character U+FFFD counted by the garbled check. -/
def replacementChar : Char := '�'

/-- Python `str.strip()` on a character list: drop whitespace from both ends. -/
def stripList (l : List Char) : List Char :=
  ((l.dropWhile pyIsSpace).reverse.dropWhile pyIsSpace).reverse

/-- Python `str.strip()`. -/
def pyStrip (s : String) : String := String.mk (stripList s.data)

/-- Accumulator pass of Python `str.split()` (split on whitespace runs,
dropping empty pieces); `cur` holds the current word reversed. -/
def pySplitAux : List Char → List Char → List (List Char)
  | [], cur => if cur = [] then [] else [cur.reverse]
  | c :: cs, cur =>
    if pyIsSpace c then
      if cur = [] then pySplitAux cs [] else cur.reverse :: pySplitAux cs []
    else pySplitAux cs (c :: cur)

/-- Python `str.split()` with no separator argument. -/
def pySplitList (l : List Char) : List (List Char) := pySplitAux l []

/-- Accumulator pass of Python `str.splitlines`; `cur` holds the current line
reversed.  A boundary emits the line (with `\r\n` consumed as one boundary);
a trailing boundary emits no empty line.  `fuel` makes the recursion
structural and is instantiated with the text length, which the recursion
never exhausts (each step consumes at least one character). -/
def slAux : Nat → List Char → List Char → List (List Char)
  | 0, l, cur => [cur.reverse ++ l]
  | _ + 1, [], cur => [cur.reverse]
  | fuel + 1, c :: cs, cur =>
    if isLineBreak c then
      match c, cs with
      | '\r', '\n' :: cs2 => cur.reverse :: (if cs2 = [] then [] else slAux fuel cs2 [])
      | _, _ => cur.reverse :: (if cs = [] then [] else slAux fuel cs [])
    else slAux fuel cs (c :: cur)

/-- Python `str.splitlines` on a character list. -/
def pySplitlinesList (l : List Char) : List (List Char) :=
  if l = [] then [] else slAux l.length l []

/-- Python `" ".join` on character lists. -/
def joinSpList : List (List Char) → List Char
  | [] => []
  | [w] => w
  | w :: ws => w ++ ' ' :: joinSpList ws

/-- Python `" ".join` on strings. -/
def joinSp (parts : List String) : String :=
  String.mk (joinSpList (parts.map String.data))

/-- Does `hay` start with `needle`? (Python slice comparison.) -/
def startsWithList : List Char → List Char → Bool
  | [], _ => true
  | _ :: _, [] => false
  | c :: cs, d :: ds => c = d && startsWithList cs ds

/-- Python substring test `needle in hay`. -/
def isSubstr (needle hay : List Char) : Bool :=
  (List.range (hay.length + 1)).any (fun i => startsWithList needle (hay.drop i))

/-- Python `str.replace(pat, rep)` (all non-overlapping occurrences, left to
right); `fuel` bounds the scan and is instantiated with the text length. -/
def replaceAllList (pat rep : List Char) : Nat → List Char → List Char
  | 0, l => l
  | _ + 1, [] => []
  | fuel + 1, c :: cs =>
    if pat ≠ [] && startsWithList pat (c :: cs) then
      rep ++ replaceAllList pat rep fuel (cs.drop (pat.length - 1))
    else c :: replaceAllList pat rep fuel cs

/-- Python `str.replace` on strings. -/
def replaceAllStr (s pat rep : String) : String :=
  String.mk (replaceAllList pat.data rep.data s.data.length s.data)

/-- Value of a run of decimal digit characters. -/
def digitsToNat (l : List Char) : Nat :=
  l.foldl (fun acc c => acc * 10 + (c.val.toNat - 48)) 0

/-- Python `str.lower`, modelled as the ASCII case map. -/
def pyLowerList (l : List Char) : List Char := l.map Char.toLower

/-- Python `abs` on a rational, written so that the kernel can evaluate it
(it equals Mathlib's `|·|`, see `ratAbs_eq_abs`). -/
def ratAbs (q : ℚ) : ℚ := if q < 0 then -q else q

/-- Division of rationals, written so that the kernel can evaluate it
(Mathlib's `/` on ℚ goes through the irreducible `Rat.inv`; this equals it,
see `ratDiv_eq_div`). -/
def ratDiv (a b : ℚ) : ℚ := Rat.divInt (a.num * b.den) (a.den * b.num)

/-- Subtraction of rationals, written so that the kernel can evaluate it
(`Rat.sub` is irreducible; this equals it, see `ratSub_eq_sub`). -/
def ratSub (a b : ℚ) : ℚ := Rat.divInt (a.num * b.den - b.num * a.den) (a.den * b.den)

/-- Multiplication of rationals, written so that the kernel can evaluate it
(`Rat.mul` is irreducible; this equals it, see `ratMul_eq_mul`). -/
def ratMul (a b : ℚ) : ℚ := Rat.divInt (a.num * b.num) (a.den * b.den)

/-!
### difflib.SequenceMatcher, junk-free

The normalizer calls `difflib.SequenceMatcher(None, w, other).ratio()`.
With no junk argument and sequences shorter than 200 elements (every word a
single invoice can contain) the junk sets are empty; the model below embeds
that junk-free algorithm: `find_longest_match` is the dynamic-programming
scan with the source's tie-breaking (a longer match wins, ties keep the
earliest), and `ratio` is twice the total size of the recursively collected
matching blocks over the combined length.
-/

/-- Positions (ascending) of character `c` in `b`: the entry `b2j[c]` of the
SequenceMatcher index. -/
def b2jList (b : List Char) (c : Char) : List Nat :=
  (List.range b.length).filter (fun j => b.get? j == some c)

/-- Lookup in the `j2len` row of the DP scan (missing key yields 0, like
`dict.get(j-1, 0)`). -/
def j2lenGet (m : List (Nat × Nat)) (j : Nat) : Nat :=
  match m.find? (fun p => p.1 == j) with
  | some p => p.2
  | none => 0

/-- One row (fixed `i`) of the `find_longest_match` DP scan: walk the
positions of `a[i]` in `b` inside the window, building the new `j2len` row
and updating the running best block. -/
def flmRow (i blo bhi : Nat) (positions : List Nat) (j2len : List (Nat × Nat))
    (best : Nat × Nat × Nat) : List (Nat × Nat) × (Nat × Nat × Nat) :=
  positions.foldl
    (fun st j =>
      if j < blo ∨ bhi ≤ j then st
      else
        let k := (if j = 0 then 0 else j2lenGet j2len (j - 1)) + 1
        ((j, k) :: st.1,
         if k > st.2.2.2 then (i + 1 - k, j + 1 - k, k) else st.2))
    ([], best)

/-- The DP scan of `find_longest_match` over `i ∈ [alo, ahi)`. -/
def flmScan (a b : List Char) (alo ahi blo bhi : Nat) : Nat × Nat × Nat :=
  ((List.range' alo (ahi - alo)).foldl
    (fun st i =>
      let positions := match a.get? i with
        | some c => b2jList b c
        | none => []
      flmRow i blo bhi positions st.1 st.2)
    ([], (alo, blo, 0))).2

/-- The backward extension loop of `find_longest_match` (junk-free, so the
junk guards of the source are vacuous); `fuel` is instantiated with `besti`. -/
def flmExtBack (a b : List Char) (alo blo : Nat) :
    Nat → Nat × Nat × Nat → Nat × Nat × Nat
  | 0, best => best
  | fuel + 1, (bi, bj, sz) =>
    if alo < bi ∧ blo < bj ∧ (a.get? (bi - 1)).isSome ∧
        a.get? (bi - 1) = b.get? (bj - 1) then
      flmExtBack a b alo blo fuel (bi - 1, bj - 1, sz + 1)
    else (bi, bj, sz)

/-- The forward extension loop of `find_longest_match`. -/
def flmExtFwd (a b : List Char) (ahi bhi : Nat) :
    Nat → Nat × Nat × Nat → Nat × Nat × Nat
  | 0, best => best
  | fuel + 1, (bi, bj, sz) =>
    if bi + sz < ahi ∧ bj + sz < bhi ∧ (a.get? (bi + sz)).isSome ∧
        a.get? (bi + sz) = b.get? (bj + sz) then
      flmExtFwd a b ahi bhi fuel (bi, bj, sz + 1)
    else (bi, bj, sz)

/-- `SequenceMatcher.find_longest_match` on the window
`a[alo:ahi] × b[blo:bhi]`, junk-free. -/
def findLongestMatch (a b : List Char) (alo ahi blo bhi : Nat) : Nat × Nat × Nat :=
  let best := flmScan a b alo ahi blo bhi
  let best := flmExtBack a b alo blo best.1 best
  flmExtFwd a b ahi bhi (ahi + bhi) best

/-- Total size of the matching blocks collected by
`SequenceMatcher.get_matching_blocks` (the recursion of the source's queue);
`fuel` bounds the recursion depth and is instantiated with the combined
length, which the shrinking windows never exceed. -/
def matchedTotal (a b : List Char) : Nat → Nat → Nat → Nat → Nat → Nat
  | 0, _, _, _, _ => 0
  | fuel + 1, alo, ahi, blo, bhi =>
    let m := findLongestMatch a b alo ahi blo bhi
    if m.2.2 = 0 then 0
    else
      m.2.2 + matchedTotal a b fuel alo m.1 blo m.2.1 +
        matchedTotal a b fuel (m.1 + m.2.2) ahi (m.2.1 + m.2.2) bhi

/-- `SequenceMatcher(None, a, b).ratio()`: twice the matched total over the
combined length (1.0 for two empty sequences, as in `_calculate_ratio`). -/
def similarity (a b : List Char) : ℚ :=
  if a.length + b.length = 0 then 1
  else Rat.divInt (2 * matchedTotal a b (a.length + b.length + 1) 0 a.length 0 b.length)
    (a.length + b.length)

/-!
### OCRNormalizer (src/services/ocr_normalizer.py)
-/

/-- Model of `unicodedata.normalize("NFC", text)`: the identity on text with
no decomposed sequences.  Every string this development manipulates is over
characters NFC leaves unchanged, so the call is modelled as the identity. -/
def nfcList (l : List Char) : List Char := l

/-- `Counter(words)`: bump the count of `w`, preserving first-seen key order
(Python dicts keep insertion order). -/
def counterBump : List (List Char × Nat) → List Char → List (List Char × Nat)
  | [], w => [(w, 1)]
  | (k, n) :: rest, w =>
    if k = w then (k, n + 1) :: rest else (k, n) :: counterBump rest w

/-- `Counter(words)` as an insertion-ordered association list. -/
def counterOf (words : List (List Char)) : List (List Char × Nat) :=
  words.foldl counterBump []

/-- `counter[x]` (0 when absent, which never happens for keys). -/
def countOf (counter : List (List Char × Nat)) (w : List Char) : Nat :=
  match counter.find? (fun p => p.1 == w) with
  | some p => p.2
  | none => 0

/-- Lookup in the `canonical` dict. -/
def canonGet (canon : List (List Char × List Char)) (w : List Char) :
    Option (List Char) :=
  match canon.find? (fun p => p.1 == w) with
  | some p => some p.2
  | none => none

/-- `canonical[g] = winner`: update in place (keys keep their position) or
append, as Python dict assignment does. -/
def canonSet : List (List Char × List Char) → List Char → List Char →
    List (List Char × List Char)
  | [], k, v => [(k, v)]
  | (a, b) :: rest, k, v =>
    if a = k then (a, v) :: rest else (a, b) :: canonSet rest k v

/-- `max(group, key=lambda x: counter[x])`: first member with the maximal
count (Python `max` keeps the earliest maximum; the group is never empty
since a word always has similarity 1 with itself). -/
def maxByCount (counter : List (List Char × Nat)) : List (List Char) →
    List Char → List Char
  | [], dflt => dflt
  | g :: gs, _ =>
    gs.foldl (fun best x => if countOf counter x > countOf counter best then x else best) g

/-- The loop of `_majority_vote` over the counter keys: skip already-assigned
words, otherwise collect the similarity group over all keys, pick the winner
by count, and (re)assign every group member to it. -/
def mvLoop (counter : List (List Char × Nat)) :
    List (List Char) → List (List Char × List Char) → List (List Char × List Char)
  | [], canon => canon
  | w :: ks, canon =>
    if (canonGet canon w).isSome then mvLoop counter ks canon
    else
      let group := (counter.map Prod.fst).filter
        (fun other => decide (mkRat 17 20 < similarity w other))
      let winner := maxByCount counter group w
      mvLoop counter ks (group.foldl (fun c g => canonSet c g winner) canon)

/-- `OCRNormalizer._majority_vote` on words as character lists. -/
def majorityVoteL (words : List (List Char)) : List (List Char) :=
  let counter := counterOf words
  let canon := mvLoop counter (counter.map Prod.fst) []
  words.map (fun w => (canonGet canon w).getD w)

/-- `OCRNormalizer._merge_broken_lines` with its running `buffer`: a trimmed
line of length ≤ 2 is appended to the buffer; a longer line flushes the
buffer as a space-joined prefix; a trailing non-empty buffer becomes a final
line. -/
def mergeAuxL : List (List Char) → List Char → List (List Char)
  | [], buf => if buf = [] then [] else [buf]
  | l :: rest, buf =>
    let line := stripList l
    if line.length ≤ 2 then mergeAuxL rest (buf ++ line)
    else if buf = [] then line :: mergeAuxL rest []
    else (buf ++ ' ' :: line) :: mergeAuxL rest []

/-- `OCRNormalizer._merge_broken_lines` on character-list lines. -/
def mergeLinesList (lines : List (List Char)) : List (List Char) :=
  mergeAuxL lines []

/-- `OCRNormalizer._merge_broken_lines` on strings. -/
def merge_broken_lines (lines : List String) : List String :=
  (mergeLinesList (lines.map String.data)).map String.mk

/-- The word sequence `normalize` feeds to the majority vote: NFC, split
into lines, merge broken lines, join with spaces, split on whitespace. -/
def wordsOfL (l : List Char) : List (List Char) :=
  pySplitList (joinSpList (mergeLinesList (pySplitlinesList (nfcList l))))

/-- `OCRNormalizer.normalize` on a character list. -/
def normalizeList (l : List Char) : List Char :=
  if l = [] then l else joinSpList (majorityVoteL (wordsOfL l))

/-- `OCRNormalizer.normalize` (the name `normalize` itself is taken by
Mathlib's GCD normalization). -/
def ocr_normalize (text : String) : String := String.mk (normalizeList text.data)

/-- The word sequence of `normalize` at the `String` level. -/
def words_of (text : String) : List (List Char) := wordsOfL text.data

/-!
### PDFAnalyzer (src/services/pdf_analyzer.py)

`_analyze_page` consumes, for one page, the raw word list and raw text block
of the PDF text layer and the embedded-image count (the `fitz` page is the
external collaborator producing them).  The locals of the source are split
into named definitions so that the theorems can speak about them.
`image_coverage` depends on `fitz` rectangle geometry and is taken as an
input here.
-/

/-- Per-page classification record (dataclass `PageAnalysis`). -/
structure PageAnalysis where
  page_number : Nat
  page_type : String
  has_text : Bool
  has_images : Bool
  word_count : Nat
  char_count : Nat
  image_count : Nat
  is_garbled : Bool
  garbled_reasons : List String
  image_coverage : ℚ
  letter_ratio : ℚ
deriving DecidableEq, Repr

/-- `valid_words`: raw words of length ≥ MIN_CHARS_FOR_VALID_WORD = 2. -/
def valid_words_of (raw_words : List String) : List String :=
  raw_words.filter (fun w => 2 ≤ w.data.length)

/-- `word_count`: the number of valid words. -/
def word_count_of (raw_words : List String) : Nat := (valid_words_of raw_words).length

/-- Count of non-whitespace characters of the stripped text block. -/
def non_space_count_of (text : String) : Nat :=
  ((stripList text.data).filter (fun c => !pyIsSpace c)).length

/-- Count of Letter-category characters of the stripped text block. -/
def letter_count_of (text : String) : Nat :=
  ((stripList text.data).filter isLetterChar).length

/-- `letter_ratio = letter_count / max(non_space_count, 1)`. -/
def letter_ratio_of (text : String) : ℚ :=
  Rat.divInt (letter_count_of text) (max (non_space_count_of text) 1)

/-- The performance shortcut of `_analyze_page`: with no valid word and at
least one image, text extraction is skipped altogether. -/
def skips_text (raw_words : List String) (image_count : Nat) : Bool :=
  decide (word_count_of raw_words = 0 ∧ 0 < image_count)

/-- The text block the page analysis actually examines: `""` under the
shortcut, the extracted text otherwise. -/
def eff_text (raw_words : List String) (text : String) (image_count : Nat) : String :=
  if skips_text raw_words image_count then "" else text

/-- `char_count`: length of the stripped text block, 0 under the shortcut. -/
def eff_char_count (raw_words : List String) (text : String) (image_count : Nat) : Nat :=
  if skips_text raw_words image_count then 0 else (stripList text.data).length

/-- `letter_ratio` as the page analysis computes it, 0.0 under the shortcut. -/
def eff_letter_ratio (raw_words : List String) (text : String) (image_count : Nat) : ℚ :=
  if skips_text raw_words image_count then 0 else letter_ratio_of text

/-- `has_text`: at least MIN_WORDS_FOR_TEXT = 5 valid words, or at least 80
characters with letter ratio ≥ MIN_LETTER_RATIO_FOR_TEXT = 0.40. -/
def has_text_flag (raw_words : List String) (text : String) (image_count : Nat) : Bool :=
  decide (5 ≤ word_count_of raw_words ∨
    (80 ≤ eff_char_count raw_words text image_count ∧
      mkRat 2 5 ≤ eff_letter_ratio raw_words text image_count))

/-- Replacement-character (U+FFFD) ratio over the non-whitespace characters
of the stripped text, with denominator floored at 1. -/
def repl_share (text : String) : ℚ :=
  Rat.divInt ((stripList text.data).filter (fun c => c = replacementChar)).length
    (max (non_space_count_of text) 1)

/-- Control-character (category Cc) ratio, excluding `\n \r \t` and space. -/
def cc_share (text : String) : ℚ :=
  Rat.divInt (((stripList text.data).filter
      (fun c => !(c = '\n' ∨ c = '\r' ∨ c = '\t' ∨ c = ' ') && isCatCc c)).length : ℤ)
    (max (non_space_count_of text) 1)

/-- Format-character (category Cf) ratio, excluding `\n \r \t` and space. -/
def cf_share (text : String) : ℚ :=
  Rat.divInt (((stripList text.data).filter
      (fun c => !(c = '\n' ∨ c = '\r' ∨ c = '\t' ∨ c = ' ') && isCatCf c)).length : ℤ)
    (max (non_space_count_of text) 1)

/-- Ratio of raw tokens whose stripped length is exactly 1, over the raw
token count floored at 1. -/
def single_char_share (raw_words : List String) : ℚ :=
  Rat.divInt (raw_words.filter (fun w => (stripList w.data).length = 1)).length
    (max raw_words.length 1)

/-- `PDFAnalyzer._is_text_garbled`: the ordered checks of the source; the
first hard match returns immediately with its single reason, soft flags
accumulate and are returned even when the verdict is "not garbled". -/
def is_text_garbled (text : String) (raw_words : List String)
    (char_count word_count : Nat) (letter_r : ℚ) : Bool × List String :=
  if stripList text.data = [] then (false, [])
  else if mkRat 5 100 ≤ repl_share text then (true, ["replacement_hard"])
  else
    let reasons := if mkRat 1 100 ≤ repl_share text then ["replacement_soft"] else []
    if mkRat 2 100 < cc_share text then (true, ["control_chars_high"])
    else
      let reasons := if mkRat 5 100 < cf_share text then
        reasons ++ ["format_chars_suspicious"] else reasons
      if mkRat 70 100 < single_char_share raw_words then (true, ["single_char_tokens_high"])
      else if letter_r < mkRat 20 100 then (true, ["letter_ratio_very_low"])
      else if letter_r < mkRat 30 100 ∧ word_count < 5 then
        (true, ["letter_ratio_low_and_few_words"])
      else if 100 < char_count ∧ word_count < 5 then (true, ["char_word_mismatch"])
      else if "replacement_soft" ∈ reasons ∧ word_count < 10 then
        (true, ["replacement_soft_plus_low_words"])
      else if "format_chars_suspicious" ∈ reasons ∧ word_count < 10 then
        (true, ["format_chars_plus_low_words"])
      else (false, reasons)

/-- `PDFAnalyzer._classify_page`: text if legible and not garbled, image if
no text but images, broken otherwise. -/
def classify_page (has_text has_images is_garbled : Bool) : String :=
  if has_text && !is_garbled then "text"
  else if !has_text && has_images then "image"
  else "broken"

/-- `PDFAnalyzer._analyze_page` for one page, from the raw word list, raw
text block and image count delivered by the text layer (`image_coverage`
is the geometry collaborator's result, see `_calculate_image_coverage`). -/
def analyze_page (raw_words : List String) (text : String) (image_count : Nat)
    (page_number : Nat) (image_coverage : ℚ) : PageAnalysis :=
  let garbled := is_text_garbled (eff_text raw_words text image_count) raw_words
    (eff_char_count raw_words text image_count) (word_count_of raw_words)
    (eff_letter_ratio raw_words text image_count)
  ⟨page_number,
   classify_page (has_text_flag raw_words text image_count) (decide (0 < image_count))
     garbled.1,
   has_text_flag raw_words text image_count,
   decide (0 < image_count),
   word_count_of raw_words,
   eff_char_count raw_words text image_count,
   image_count,
   garbled.1,
   garbled.2,
   image_coverage,
   eff_letter_ratio raw_words text image_count⟩

/-- Number of pages of a given page type. -/
def count_type (pages : List PageAnalysis) (t : String) : Nat :=
  (pages.filter (fun p => p.page_type == t)).length

/-- `PDFAnalyzer._determine_pdf_type`: all/majority broken → broken; at
least half text → text; at least half image → image; otherwise more text
than image → text, else image. -/
def determine_pdf_type (pages : List PageAnalysis) : String :=
  if pages = [] then "broken"
  else if count_type pages "broken" = pages.length then "broken"
  else if mkRat 1 2 < Rat.divInt (count_type pages "broken") pages.length then "broken"
  else if mkRat 1 2 ≤ Rat.divInt (count_type pages "text") pages.length then "text"
  else if mkRat 1 2 ≤ Rat.divInt (count_type pages "image") pages.length then "image"
  else if count_type pages "image" < count_type pages "text" then "text"
  else "image"

/-- `PDFAnalyzer._calculate_confidence`: 0.0 for a broken document,
otherwise the fraction of pages matching the document type. -/
def calculate_confidence (pages : List PageAnalysis) (pdf_type : String) : ℚ :=
  if pdf_type = "broken" then 0
  else Rat.divInt (count_type pages pdf_type) pages.length

/-- Per-type page counts (the `page_type_counts` dict). -/
structure PageTypeCounts where
  text : Nat
  image : Nat
  broken : Nat
deriving DecidableEq, Repr

/-- Document-level analysis record (dataclass `PDFAnalysis`; the
presentational `analysis_details` dict is omitted). -/
structure PDFAnalysis where
  pdf_type : String
  page_count : Nat
  pages : List PageAnalysis
  total_words : Nat
  total_images : Nat
  confidence : ℚ
  page_type_counts : PageTypeCounts
deriving DecidableEq, Repr

/-- The text-layer inputs of one page, as consumed by `_analyze_page`. -/
structure PageInput where
  raw_words : List String
  text : String
  image_count : Nat
  image_coverage : ℚ
deriving DecidableEq, Repr

/-- `PDFAnalyzer.analyze` after the `fitz` extraction: analyze each page
(numbered from 1), determine the document type, its confidence and the
per-type counts. -/
def analyze_document (inputs : List PageInput) : PDFAnalysis :=
  let pages := inputs.mapIdx (fun i inp =>
    analyze_page inp.raw_words inp.text inp.image_count (i + 1) inp.image_coverage)
  let pdf_type := determine_pdf_type pages
  ⟨pdf_type,
   pages.length,
   pages,
   (pages.map (fun p => p.word_count)).sum,
   (pages.map (fun p => p.image_count)).sum,
   calculate_confidence pages pdf_type,
   ⟨count_type pages "text", count_type pages "image", count_type pages "broken"⟩⟩

/-!
### BBoxTableParser (src/services/layout_parser/table_parser.py)
-/

/-- One OCR detection with position (dataclass `OCRToken` of
paddle_ocr_service.py). -/
structure OCRToken where
  text : String
  confidence : ℚ
  bbox : ℚ × ℚ × ℚ × ℚ
  center_x : ℚ
  center_y : ℚ
deriving DecidableEq, Repr

/-- One reconstructed line item (dataclass `InvoiceItem`). -/
structure InvoiceItem where
  description : String
  quantity : ℤ
  unit_price : ℚ
  total_price : ℚ
  confidence : ℚ
deriving DecidableEq, Repr

/-- `BBoxTableParser.HEADER_KEYWORDS` (a Python set; `any` over it does not
depend on iteration order). -/
def HEADER_KEYWORDS : List String :=
  ["tarih", "vergi", "daire", "sayın", "seri",
   "irsaliye", "toplam", "kdv", "genel", "no", "vd"]

/-- Stable ascending insertion by `center_y`: an equal-key element is placed
after the existing ones, so folding a list through this reproduces Python's
stable `sorted(tokens, key=lambda t: t.center_y)`. -/
def insertByY (t : OCRToken) : List OCRToken → List OCRToken
  | [] => [t]
  | x :: xs => if t.center_y < x.center_y then t :: x :: xs else x :: insertByY t xs

/-- `sorted(tokens, key=lambda t: t.center_y)`. -/
def sortByY (tokens : List OCRToken) : List OCRToken :=
  tokens.foldl (fun acc t => insertByY t acc) []

/-- Place one token into the first row whose first member's vertical center
is within `y_threshold = 12` of it, else open a new row (the inner loop of
`_group_rows`; rows are never empty, the empty-row branch is unreachable). -/
def placeToken : List (List OCRToken) → OCRToken → List (List OCRToken)
  | [], tok => [[tok]]
  | row :: rest, tok =>
    match row with
    | r0 :: _ =>
      if ratAbs (ratSub r0.center_y tok.center_y) < 12 then (row ++ [tok]) :: rest
      else row :: placeToken rest tok
    | [] => [] :: placeToken rest tok

/-- `BBoxTableParser._group_rows`: greedy single-pass clustering of the
y-sorted tokens. -/
def group_rows (tokens : List OCRToken) : List (List OCRToken) :=
  (sortByY tokens).foldl placeToken []

/-- The lower-cased, space-joined text of a row, checked against the header
keywords. -/
def row_text_joined (row : List OCRToken) : List Char :=
  joinSpList (row.map (fun t => pyLowerList t.text.data))

/-- The four column buckets of a row (`cols` dict of `_parse_row`). -/
structure RowCols where
  desc : List String
  qty : List String
  unit : List String
  total : List String
deriving DecidableEq, Repr

/-- Column bucketing of `_parse_row`: each non-blank token text goes to
description / quantity / unit price / total by its `center_x / page_width`
ratio (boundaries 0.35, 0.50, 0.70). -/
def row_buckets (row : List OCRToken) (page_width : ℚ) : RowCols :=
  row.foldl
    (fun cols tok =>
      let text := pyStrip tok.text
      if text = "" then cols
      else if ratDiv tok.center_x page_width < mkRat 35 100 then
        ⟨cols.desc ++ [text], cols.qty, cols.unit, cols.total⟩
      else if ratDiv tok.center_x page_width < mkRat 50 100 then
        ⟨cols.desc, cols.qty ++ [text], cols.unit, cols.total⟩
      else if ratDiv tok.center_x page_width < mkRat 70 100 then
        ⟨cols.desc, cols.qty, cols.unit ++ [text], cols.total⟩
      else ⟨cols.desc, cols.qty, cols.unit, cols.total ++ [text]⟩)
    ⟨[], [], [], []⟩

/-- The quantity bucket of a row. -/
def qty_bucket (row : List OCRToken) (page_width : ℚ) : List String :=
  (row_buckets row page_width).qty

/-- First match of the regex `\d+(?:[.,]\d+)?` in a character list: from the
first digit, the maximal digit run, then one optional `.`/`,` separator
followed by a non-empty maximal digit run. -/
def extractFirstNum : List Char → Option (List Char)
  | [] => none
  | c :: cs =>
    if c.isDigit then
      let d1 := (c :: cs).takeWhile Char.isDigit
      let rest := (c :: cs).drop d1.length
      some (match rest with
        | s :: r2 =>
          if s = '.' ∨ s = ',' then
            let d2 := r2.takeWhile Char.isDigit
            if d2 = [] then d1 else d1 ++ s :: d2
          else d1
        | [] => d1)
    else extractFirstNum cs

/-- First numeric match over the space-joined fragments of a bucket
(`re.findall` inside `_safe_number`). -/
def first_num_of (parts : List String) : Option (List Char) :=
  extractFirstNum (joinSpList (parts.map String.data))

/-- Value of a matched numeric string after `.replace(",", ".")`, as
`float()` reads it (exact rational). -/
def numValue (numStr : List Char) : ℚ :=
  let d1 := numStr.takeWhile Char.isDigit
  let rest := numStr.drop d1.length
  match rest with
  | [] => (digitsToNat d1 : ℚ)
  | _ :: d2 => Rat.divInt (digitsToNat d1 * 10 ^ d2.length + digitsToNat d2) (10 ^ d2.length)

/-- `BBoxTableParser._safe_number` with `cast=float`: no match yields the
default, a match parses exactly. -/
def safe_number_rat (parts : List String) (dflt : ℚ) : ℚ :=
  match first_num_of parts with
  | none => dflt
  | some s => numValue s

/-- `BBoxTableParser._safe_number` with `cast=int`: `int()` accepts only a
pure digit string, so a match containing a decimal separator raises and the
exception handler returns the default. -/
def safe_number_int (parts : List String) (dflt : ℤ) : ℤ :=
  match first_num_of parts with
  | none => dflt
  | some s => if s.all Char.isDigit then (digitsToNat s : ℤ) else dflt

/-- The fixed OCR-misread substitution table applied to the description. -/
def fix_description (s : String) : String :=
  replaceAllStr (replaceAllStr s "Örün" "Ürün") "0rün" "Ürün"

/-- `BBoxTableParser._parse_row`: drop header/metadata rows, bucket by
column, require description, unit price and total, parse the numbers
(quantity defaults to 1), drop non-positive rows, and score the arithmetic
consistency `|qty*price − total| < 1` as 0.95 versus 0.85. -/
def parse_row (row : List OCRToken) (page_width : ℚ) : Option InvoiceItem :=
  if HEADER_KEYWORDS.any (fun k => isSubstr k.data (row_text_joined row)) then none
  else
    let cols := row_buckets row page_width
    if cols.desc = [] ∨ cols.unit = [] ∨ cols.total = [] then none
    else
      let qty := safe_number_int cols.qty 1
      let unit_price := safe_number_rat cols.unit 0
      let total_price := safe_number_rat cols.total 0
      if qty ≤ 0 ∨ unit_price ≤ 0 ∨ total_price ≤ 0 then none
      else
        some ⟨fix_description (joinSp cols.desc), qty, unit_price, total_price,
          if ratAbs (ratSub (ratMul (qty : ℚ) unit_price) total_price) < 1 then mkRat 95 100
          else mkRat 85 100⟩

/-- `BBoxTableParser.parse`: group the tokens into rows and keep the rows
that parse into items. -/
def parse (tokens : List OCRToken) (page_width : ℚ) : List InvoiceItem :=
  (group_rows tokens).filterMap (fun row => parse_row row page_width)

/-!
### Claim-side definitions

These follow the wording of the specification (not the source) and exist to
be compared with the source embeddings above.
-/

/-- The `has_text` rule as the specification words it: `word_count ≥ 5`, or
`char_count ≥ 80` and `letter_ratio ≥ 0.40`, with `char_count` the length of
the stripped text block and `letter_ratio` computed over that block. -/
def claim_has_text (raw_words : List String) (text : String) : Bool :=
  decide (5 ≤ word_count_of raw_words ∨
    (80 ≤ (stripList text.data).length ∧ mkRat 2 5 ≤ letter_ratio_of text))

/-- Is a line short after trimming (the ≤ 2 test of the line merge)? -/
def isShortL (l : List Char) : Bool := decide ((stripList l).length ≤ 2)

/-- The line-merge step as the specification narrates it: the leading run of
short lines is buffered, the next long line is emitted with the buffered
content as a space-joined prefix (no prefix when nothing was buffered), and
a trailing unflushed buffer becomes its own final line. -/
def specMergeL (lines : List (List Char)) : List (List Char) :=
  match hdw : lines.dropWhile isShortL with
  | [] =>
    let buf := ((lines.takeWhile isShortL).map stripList).flatten
    if buf = [] then [] else [buf]
  | long :: rest =>
    let buf := ((lines.takeWhile isShortL).map stripList).flatten
    (if buf = [] then stripList long else buf ++ ' ' :: stripList long) :: specMergeL rest
termination_by lines.length
decreasing_by
  have h1 : (lines.dropWhile isShortL).length ≤ lines.length :=
    (List.dropWhile_sublist _).length_le
  rw [hdw] at h1
  simp only [List.length_cons] at h1
  omega

/-- `specMergeL` started with an explicit buffer already accumulated (the
shape the bridge induction needs). -/
def specFromL (buf : List Char) (lines : List (List Char)) : List (List Char) :=
  match lines.dropWhile isShortL with
  | [] =>
    let buf2 := buf ++ ((lines.takeWhile isShortL).map stripList).flatten
    if buf2 = [] then [] else [buf2]
  | long :: rest =>
    let buf2 := buf ++ ((lines.takeWhile isShortL).map stripList).flatten
    (if buf2 = [] then stripList long else buf2 ++ ' ' :: stripList long) :: specMergeL rest

/-- A page record carrying only a page type (the other fields are irrelevant
to the document-level rules, which read `page_type` alone). -/
def pageOfType (t : String) : PageAnalysis := ⟨1, t, false, false, 0, 0, 0, false, [], 0, 0⟩

/-- A four-page document with one text, one image and two broken pages: no
document-level rule 1–4 threshold is reached and the text and image counts
tie. -/
def tiePages : List PageAnalysis :=
  [pageOfType "text", pageOfType "image", pageOfType "broken", pageOfType "broken"]

/-- A text with a chain of near-duplicate words: the middle word is within
similarity 0.85 of both neighbours, the outer two are not within 0.85 of
each other. -/
def chainText : String := "abcdefg abcdefh abcdefh abcdehh abcdehh abcdehh"

/-- The tokens of the specification's round-trip test row: texts "Widget",
"3", "10.00", "30.00" at horizontal centers 10, 40, 60, 90 of a page of
width 100 (center ratios 0.1, 0.4, 0.6, 0.9), one shared vertical band. -/
def roundTripTokens : List OCRToken :=
  [⟨"Widget", 1, (0, 0, 0, 0), 10, 0⟩, ⟨"3", 1, (0, 0, 0, 0), 40, 0⟩,
   ⟨"10.00", 1, (0, 0, 0, 0), 60, 0⟩, ⟨"30.00", 1, (0, 0, 0, 0), 90, 0⟩]

/-- A row whose quantity cell reads "2,5": description, fractional quantity,
unit price 10 and total 25 at the four column positions. -/
def fractionalQtyRow : List OCRToken :=
  [⟨"Thing", 1, (0, 0, 0, 0), 10, 0⟩, ⟨"2,5", 1, (0, 0, 0, 0), 40, 0⟩,
   ⟨"10", 1, (0, 0, 0, 0), 60, 0⟩, ⟨"25", 1, (0, 0, 0, 0), 90, 0⟩]

/-- A row containing the header keyword "KDV" whose numeric fields would
otherwise validate (quantity 2, unit price 50, total 100). -/
def kdvRow : List OCRToken :=
  [⟨"KDV", 1, (0, 0, 0, 0), 10, 0⟩, ⟨"2", 1, (0, 0, 0, 0), 40, 0⟩,
   ⟨"50", 1, (0, 0, 0, 0), 60, 0⟩, ⟨"100", 1, (0, 0, 0, 0), 90, 0⟩]

/-!
### Bridging lemmas for the kernel-computable rational operations
-/

theorem ratAbs_eq_abs (q : ℚ) : ratAbs q = |q| := by
  rw [ratAbs]
  split
  · rw [abs_of_neg (by assumption)]
  · rw [abs_of_nonneg (not_lt.mp (by assumption))]

theorem ratMul_eq_mul (a b : ℚ) : ratMul a b = a * b := by
  rw [ratMul]
  conv_rhs => rw [← Rat.num_divInt_den a, ← Rat.num_divInt_den b]
  rw [Rat.divInt_mul_divInt _ _ (by exact_mod_cast a.den_nz) (by exact_mod_cast b.den_nz)]

theorem ratSub_eq_sub (a b : ℚ) : ratSub a b = a - b := by
  rw [ratSub]
  conv_rhs => rw [← Rat.num_divInt_den a, ← Rat.num_divInt_den b]
  rw [Rat.divInt_sub_divInt _ _ (by exact_mod_cast a.den_nz) (by exact_mod_cast b.den_nz)]

theorem ratDiv_eq_div (a b : ℚ) : ratDiv a b = a / b := by
  rw [ratDiv, Rat.divInt_eq_div]
  rcases eq_or_ne b 0 with rfl | hb
  · simp
  · have hbn : (b.num : ℚ) ≠ 0 := Int.cast_ne_zero.mpr (Rat.num_ne_zero.mpr hb)
    have had : ((a.den : ℤ) : ℚ) ≠ 0 := by exact_mod_cast a.den_nz
    have hbd : ((b.den : ℤ) : ℚ) ≠ 0 := by exact_mod_cast b.den_nz
    conv_rhs => rw [← Rat.num_div_den a, ← Rat.num_div_den b]
    push_cast
    field_simp

/-- A numeric match containing a decimal separator makes the `int` cast of
`_safe_number` raise, so the caller-supplied default is returned. -/
theorem safe_number_int_of_sep (parts : List String) (s : List Char) (d : ℤ)
    (h1 : first_num_of parts = some s)
    (h2 : s.any (fun c => c == '.' || c == ',') = true) :
    safe_number_int parts d = d := by
  rw [safe_number_int, h1]
  have hall : s.all Char.isDigit = false := by
    rcases List.any_eq_true.mp h2 with ⟨c, hc, hcd⟩
    rcases Bool.or_eq_true_iff.mp hcd with h | h
    · have : c = '.' := by exact_mod_cast eq_of_beq h
      subst this
      exact List.all_eq_false.mpr ⟨'.', hc, by decide⟩
    · have : c = ',' := by exact_mod_cast eq_of_beq h
      subst this
      exact List.all_eq_false.mpr ⟨',', hc, by decide⟩
  dsimp only
  rw [hall]
  simp

/-!
### Helper lemmas
-/

/-- Every `splitlines` boundary character is whitespace. -/
theorem break_is_space (c : Char) (h : isLineBreak c = true) : pyIsSpace c = true := by
  rw [isLineBreak] at h
  rw [pyIsSpace]
  have := of_decide_eq_true h
  apply decide_eq_true
  omega

/-- `dropWhile` is the identity when the head fails the predicate. -/
theorem dropWhile_eq_self_of_head (p : Char → Bool) (l : List Char)
    (h : ∀ c, l.head? = some c → p c = false) : l.dropWhile p = l := by
  cases l with
  | nil => rfl
  | cons c cs => rw [List.dropWhile_cons, if_neg (by rw [h c rfl]; simp)]

/-- Stripping is the identity on text with non-space boundary characters. -/
theorem stripList_eq_self (l : List Char)
    (h1 : ∀ c, l.head? = some c → pyIsSpace c = false)
    (h2 : ∀ c, l.getLast? = some c → pyIsSpace c = false) :
    stripList l = l := by
  rw [stripList, dropWhile_eq_self_of_head _ _ h1,
    dropWhile_eq_self_of_head _ _ (by rw [List.head?_reverse]; exact h2), List.reverse_reverse]

/-- Words produced by `str.split()` are non-empty and whitespace-free. -/
theorem pySplitAux_good (l : List Char) :
    ∀ cur, (∀ c ∈ cur, pyIsSpace c = false) →
    ∀ w ∈ pySplitAux l cur, w ≠ [] ∧ ∀ c ∈ w, pyIsSpace c = false := by
  induction l with
  | nil =>
      intro cur hcur w hw
      rw [pySplitAux] at hw
      split at hw
      · simp at hw
      · next hc =>
          rw [List.mem_singleton] at hw
          subst hw
          exact ⟨by simpa using hc, fun c hc2 => hcur c (List.mem_reverse.mp hc2)⟩
  | cons c cs ih =>
      intro cur hcur w hw
      rw [pySplitAux] at hw
      split at hw
      · split at hw
        · exact ih [] (by simp) w hw
        · next hc =>
            rcases List.mem_cons.mp hw with hw | hw
            · subst hw
              exact ⟨by simpa using hc, fun d hd => hcur d (List.mem_reverse.mp hd)⟩
            · exact ih [] (by simp) w hw
      · next hsp =>
          refine ih (c :: cur) ?_ w hw
          intro d hd
          rcases List.mem_cons.mp hd with rfl | hd
          · simpa using hsp
          · exact hcur d hd

/-- Scanning a whitespace-free word accumulates it whole. -/
theorem pySplitAux_append_word (w : List Char) (hw : ∀ c ∈ w, pyIsSpace c = false) :
    ∀ (X cur : List Char), pySplitAux (w ++ X) cur = pySplitAux X (w.reverse ++ cur) := by
  induction w with
  | nil => intro X cur; simp
  | cons c ws ih =>
      intro X cur
      rw [List.cons_append, pySplitAux, if_neg (by rw [hw c (List.mem_cons_self c ws)]; simp)]
      rw [ih (fun d hd => hw d (List.mem_cons_of_mem c hd)) X (c :: cur)]
      simp

/-- Splitting the space-join of non-empty whitespace-free words recovers them. -/
theorem pySplit_joinSp (ws : List (List Char))
    (h : ∀ w ∈ ws, w ≠ [] ∧ ∀ c ∈ w, pyIsSpace c = false) :
    pySplitList (joinSpList ws) = ws := by
  induction ws with
  | nil => rfl
  | cons w tail ih =>
      obtain ⟨hw1, hw2⟩ := h w (List.mem_cons_self w tail)
      cases tail with
      | nil =>
          rw [joinSpList, pySplitList, show w = w ++ [] from by simp,
            pySplitAux_append_word w hw2 [] []]
          rw [pySplitAux, if_neg (by simpa using hw1)]
          simp
      | cons w2 tail2 =>
          rw [joinSpList, pySplitList, pySplitAux_append_word w hw2 _ []]
          rw [pySplitAux, if_pos (by decide), if_neg (by simpa using hw1)]
          have := ih (fun x hx => h x (List.mem_cons_of_mem w hx))
          rw [pySplitList] at this
          rw [this]
          · simp
          · simp

/-- The `splitlines` scan of boundary-free text yields one line. -/
theorem slAux_no_break (l : List Char) :
    ∀ (fuel : Nat) (cur : List Char), (∀ c ∈ l, isLineBreak c = false) →
    slAux fuel l cur = [cur.reverse ++ l] := by
  induction l with
  | nil =>
      intro fuel cur h
      cases fuel <;> simp [slAux]
  | cons c cs ih =>
      intro fuel cur h
      have hc : isLineBreak c = false := h c (List.mem_cons_self c cs)
      cases fuel with
      | zero => rw [slAux]
      | succ fuel =>
          rw [slAux, if_neg (by rw [hc]; simp)]
          · rw [ih fuel (c :: cur) (fun d hd => h d (List.mem_cons_of_mem c hd))]
            simp
          · intro cs2 hcc hcs
            rw [hcc] at hc
            exact absurd hc (by decide)

/-- `splitlines` of non-empty boundary-free text is that single line. -/
theorem splitlines_single (l : List Char) (hne : l ≠ [])
    (h : ∀ c ∈ l, isLineBreak c = false) : pySplitlinesList l = [l] := by
  rw [pySplitlinesList, if_neg hne, slAux_no_break l l.length [] h]
  simp

/-- The line merge leaves a single non-empty stripped line unchanged. -/
theorem merge_single (s : List Char) (hne : s ≠ []) (hstrip : stripList s = s) :
    mergeLinesList [s] = [s] := by
  rw [mergeLinesList, mergeAuxL]
  simp only [hstrip]
  split
  · rw [mergeAuxL, List.nil_append, if_neg hne]
  · rw [mergeAuxL]
    simp

/-- A space-join starting with a non-empty word is non-empty. -/
theorem joinSp_ne_nil (w : List Char) (ws : List (List Char)) (hw : w ≠ []) :
    joinSpList (w :: ws) ≠ [] := by
  cases ws with
  | nil => simpa [joinSpList] using hw
  | cons w2 ws2 =>
      rw [joinSpList]
      · cases w with
        | nil => exact absurd rfl hw
        | cons c cs => simp
      · simp

/-- A space-join of whitespace-free words contains no line boundary. -/
theorem joinSp_no_break (ws : List (List Char))
    (h : ∀ w ∈ ws, ∀ c ∈ w, pyIsSpace c = false) :
    ∀ c ∈ joinSpList ws, isLineBreak c = false := by
  induction ws with
  | nil => intro c hc; simp [joinSpList] at hc
  | cons w tail ih =>
      intro c hc
      have hword : ∀ d ∈ w, isLineBreak d = false := by
        intro d hd
        by_contra hbr
        have h1 : isLineBreak d = true := by
          cases hdb : isLineBreak d
          · exact absurd hdb hbr
          · rfl
        have := break_is_space d h1
        rw [h w (List.mem_cons_self w tail) d hd] at this
        cases this
      cases tail with
      | nil =>
          rw [joinSpList] at hc
          exact hword c hc
      | cons w2 tail2 =>
          rw [joinSpList] at hc
          · rcases List.mem_append.mp hc with hc | hc
            · exact hword c hc
            · rcases List.mem_cons.mp hc with rfl | hc
              · decide
              · exact ih (fun x hx => h x (List.mem_cons_of_mem w hx)) c hc
          · simp

/-- The first character of such a join is not whitespace. -/
theorem joinSp_head (w : List Char) (ws : List (List Char)) (hw : w ≠ [])
    (hgood : ∀ c ∈ w, pyIsSpace c = false) :
    ∀ c, (joinSpList (w :: ws)).head? = some c → pyIsSpace c = false := by
  intro c hc
  cases w with
  | nil => exact absurd rfl hw
  | cons c0 cs =>
      cases ws with
      | nil =>
          rw [joinSpList] at hc
          rw [List.head?_cons, Option.some.injEq] at hc
          subst hc
          exact hgood c0 (List.mem_cons_self c0 cs)
      | cons w2 ws2 =>
          rw [joinSpList] at hc
          · rw [List.cons_append, List.head?_cons, Option.some.injEq] at hc
            subst hc
            exact hgood c0 (List.mem_cons_self c0 cs)
          · simp

/-- The last character of such a join is not whitespace. -/
theorem joinSp_getLast (ws : List (List Char)) :
    (∀ w ∈ ws, w ≠ [] ∧ ∀ c ∈ w, pyIsSpace c = false) →
    ∀ c, (joinSpList ws).getLast? = some c → pyIsSpace c = false := by
  induction ws with
  | nil => intro h c hc; simp [joinSpList] at hc
  | cons w tail ih =>
      intro h c hc
      obtain ⟨hw1, hw2⟩ := h w (List.mem_cons_self w tail)
      cases tail with
      | nil =>
          rw [joinSpList] at hc
          exact hw2 c (List.mem_of_mem_getLast? hc)
      | cons w2 tail2 =>
          rw [joinSpList] at hc
          · have hJ : joinSpList (w2 :: tail2) ≠ [] :=
              joinSp_ne_nil w2 tail2 (h w2 (List.mem_cons_of_mem w (List.mem_cons_self w2 tail2))).1
            rw [List.getLast?_append_of_ne_nil _ (by simp),
              show ' ' :: joinSpList (w2 :: tail2) = [' '] ++ joinSpList (w2 :: tail2) from rfl,
              List.getLast?_append_of_ne_nil _ hJ] at hc
            exact ih (fun x hx => h x (List.mem_cons_of_mem w hx)) c hc
          · simp

/-- Core of the idempotence analysis: when the majority vote fixes the word
sequence of a text, a second `normalize` pass reproduces the first (the
output is a single boundary-free line whose words split back unchanged). -/
theorem normalizeList_idem (l : List Char)
    (h : majorityVoteL (wordsOfL l) = wordsOfL l) :
    normalizeList (normalizeList l) = normalizeList l := by
  by_cases hl : l = []
  · subst hl; rfl
  · have hgood : ∀ w ∈ wordsOfL l, w ≠ [] ∧ ∀ c ∈ w, pyIsSpace c = false := by
      intro w hw
      rw [wordsOfL, pySplitList] at hw
      exact pySplitAux_good _ [] (by simp) w hw
    have h1 : normalizeList l = joinSpList (wordsOfL l) := by
      rw [normalizeList, if_neg hl, h]
    rw [h1]
    cases hws : wordsOfL l with
    | nil => simp [joinSpList, normalizeList]
    | cons w tail =>
        have hgood2 : ∀ x ∈ w :: tail, x ≠ [] ∧ ∀ c ∈ x, pyIsSpace c = false := hws ▸ hgood
        have hne : joinSpList (w :: tail) ≠ [] :=
          joinSp_ne_nil w tail (hgood2 w (List.mem_cons_self w tail)).1
        have hstrip : stripList (joinSpList (w :: tail)) = joinSpList (w :: tail) :=
          stripList_eq_self _
            (joinSp_head w tail (hgood2 w (List.mem_cons_self w tail)).1
              (hgood2 w (List.mem_cons_self w tail)).2)
            (joinSp_getLast _ hgood2)
        have hnobreak : ∀ c ∈ joinSpList (w :: tail), isLineBreak c = false :=
          joinSp_no_break _ (fun x hx => (hgood2 x hx).2)
        have hwords : wordsOfL (joinSpList (w :: tail)) = w :: tail := by
          rw [wordsOfL, nfcList, splitlines_single _ hne hnobreak, merge_single _ hne hstrip,
            show joinSpList [joinSpList (w :: tail)] = joinSpList (w :: tail) from rfl]
          exact pySplit_joinSp _ hgood2
        have h2 : majorityVoteL (w :: tail) = w :: tail := by rw [← hws]; exact h
        rw [normalizeList, if_neg hne, hwords, h2]

/-- `specMergeL` when only short lines remain. -/
theorem specMergeL_nil_run (lines : List (List Char))
    (h : lines.dropWhile isShortL = []) :
    specMergeL lines =
      (if ((lines.takeWhile isShortL).map stripList).flatten = [] then []
       else [((lines.takeWhile isShortL).map stripList).flatten]) := by
  rw [specMergeL.eq_def]
  split
  · rfl
  · next hdw => rw [h] at hdw; cases hdw

/-- `specMergeL` when a long line follows the leading short run. -/
theorem specMergeL_cons_run (lines : List (List Char)) (long : List Char)
    (rest : List (List Char)) (h : lines.dropWhile isShortL = long :: rest) :
    specMergeL lines =
      (if ((lines.takeWhile isShortL).map stripList).flatten = [] then stripList long
       else ((lines.takeWhile isShortL).map stripList).flatten ++ ' ' :: stripList long) ::
        specMergeL rest := by
  rw [specMergeL.eq_def]
  split
  · next hdw => rw [h] at hdw; cases hdw
  · next l2 r2 hdw =>
      rw [h] at hdw
      injection hdw with h1 h2
      subst h1
      subst h2
      rfl

/-- `specFromL` when only short lines remain. -/
theorem specFromL_nil_run (buf : List Char) (lines : List (List Char))
    (h : lines.dropWhile isShortL = []) :
    specFromL buf lines =
      (if buf ++ ((lines.takeWhile isShortL).map stripList).flatten = [] then []
       else [buf ++ ((lines.takeWhile isShortL).map stripList).flatten]) := by
  unfold specFromL
  split
  · rfl
  · next hdw => rw [h] at hdw; cases hdw

/-- `specFromL` when a long line follows the leading short run. -/
theorem specFromL_cons_run (buf : List Char) (lines : List (List Char)) (long : List Char)
    (rest : List (List Char)) (h : lines.dropWhile isShortL = long :: rest) :
    specFromL buf lines =
      (if buf ++ ((lines.takeWhile isShortL).map stripList).flatten = [] then stripList long
       else buf ++ ((lines.takeWhile isShortL).map stripList).flatten ++ ' ' :: stripList long) ::
        specMergeL rest := by
  unfold specFromL
  split
  · next hdw => rw [h] at hdw; cases hdw
  · next l2 r2 hdw =>
      rw [h] at hdw
      injection hdw with h1 h2
      subst h1
      subst h2
      rfl

/-- `specFromL` with an empty buffer is `specMergeL`. -/
theorem specFromL_nil_buf (lines : List (List Char)) :
    specFromL [] lines = specMergeL lines := by
  cases hdw : lines.dropWhile isShortL with
  | nil => rw [specFromL_nil_run _ _ hdw, specMergeL_nil_run _ hdw, List.nil_append]
  | cons long rest =>
      rw [specFromL_cons_run _ _ _ _ hdw, specMergeL_cons_run _ _ _ hdw, List.nil_append]

/-- A leading short line moves its trimmed content into the buffer. -/
theorem specFromL_cons_short (l : List Char) (rest : List (List Char)) (buf : List Char)
    (hs : isShortL l = true) :
    specFromL buf (l :: rest) = specFromL (buf ++ stripList l) rest := by
  have hdw2 : (l :: rest).dropWhile isShortL = rest.dropWhile isShortL := by
    rw [List.dropWhile_cons, if_pos hs]
  have htw : (l :: rest).takeWhile isShortL = l :: rest.takeWhile isShortL := by
    rw [List.takeWhile_cons, if_pos hs]
  cases hdw : rest.dropWhile isShortL with
  | nil =>
      rw [specFromL_nil_run _ _ (hdw2.trans hdw), specFromL_nil_run _ _ hdw, htw]
      simp [List.append_assoc]
  | cons long r2 =>
      rw [specFromL_cons_run _ _ _ _ (hdw2.trans hdw), specFromL_cons_run _ _ _ _ hdw, htw]
      simp [List.append_assoc]

/-- A leading long line is emitted with the buffer as prefix. -/
theorem specFromL_cons_long (l : List Char) (rest : List (List Char)) (buf : List Char)
    (hs : isShortL l = false) :
    specFromL buf (l :: rest) =
      (if buf = [] then stripList l else buf ++ ' ' :: stripList l) :: specMergeL rest := by
  have hdw : (l :: rest).dropWhile isShortL = l :: rest := by
    rw [List.dropWhile_cons, if_neg (by simp [hs])]
  have htw : (l :: rest).takeWhile isShortL = [] := by
    rw [List.takeWhile_cons, if_neg (by simp [hs])]
  rw [specFromL_cons_run _ _ _ _ hdw, htw]
  simp

/-- The source's buffered walk agrees with the run-based description. -/
theorem mergeAuxL_eq_specFromL (lines : List (List Char)) :
    ∀ buf, mergeAuxL lines buf = specFromL buf lines := by
  induction lines with
  | nil =>
      intro buf
      rw [specFromL_nil_run buf [] rfl]
      simp [mergeAuxL]
  | cons l rest ih =>
      intro buf
      cases hs : isShortL l
      · have hs2 : ¬((stripList l).length ≤ 2) := of_decide_eq_false hs
        rw [specFromL_cons_long l rest buf hs]
        rw [show mergeAuxL (l :: rest) buf =
            (if buf = [] then stripList l else buf ++ ' ' :: stripList l) :: mergeAuxL rest []
          from by rw [mergeAuxL]; simp only [if_neg hs2]; split <;> simp]
        rw [ih, specFromL_nil_buf]
      · have hs2 : (stripList l).length ≤ 2 := of_decide_eq_true hs
        rw [specFromL_cons_short l rest buf hs]
        rw [show mergeAuxL (l :: rest) buf = mergeAuxL rest (buf ++ stripList l)
          from by rw [mergeAuxL]; simp only [if_pos hs2]]
        exact ih _

/-!
### The claims
-/

/-- C1 (counterexample): a four-page document with one text page, one image
page and two broken pages reaches none of rules 1-4 (not all broken, broken
fraction exactly one half, text and image fractions one quarter each), its
text and image page counts are equal, yet `_determine_pdf_type` returns
"image", not the "text" the claim's tie rule demands. -/
theorem c1_tie_counterexample :
    tiePages ≠ [] ∧
    count_type tiePages "broken" ≠ tiePages.length ∧
    ¬(mkRat 1 2 < Rat.divInt (count_type tiePages "broken") tiePages.length) ∧
    Rat.divInt (count_type tiePages "text") tiePages.length < mkRat 1 2 ∧
    Rat.divInt (count_type tiePages "image") tiePages.length < mkRat 1 2 ∧
    count_type tiePages "text" = count_type tiePages "image" ∧
    determine_pdf_type tiePages = "image" ∧ determine_pdf_type tiePages ≠ "text" := by
  decide

/-- C1 (amended): for every non-empty page sequence in which no type reaches
the thresholds of rules 1-4, the document classifier returns whichever of
text/image has the larger page count, and when the two counts are equal it
returns image (ties favor image, not text). -/
theorem c1_mixed_split_amended (pages : List PageAnalysis)
    (h0 : pages ≠ [])
    (h1 : count_type pages "broken" ≠ pages.length)
    (h2 : ¬(mkRat 1 2 < Rat.divInt (count_type pages "broken") pages.length))
    (h3 : Rat.divInt (count_type pages "text") pages.length < mkRat 1 2)
    (h4 : Rat.divInt (count_type pages "image") pages.length < mkRat 1 2) :
    determine_pdf_type pages =
      (if count_type pages "image" < count_type pages "text" then "text" else "image") := by
  rw [determine_pdf_type, if_neg h0, if_neg h1, if_neg h2,
    if_neg (not_le.mpr h3), if_neg (not_le.mpr h4)]

/-- C1 witness: the amended rule evaluated on the four-page tie document. -/
theorem c1_mixed_split_witness :
    tiePages ≠ [] ∧
    count_type tiePages "broken" ≠ tiePages.length ∧
    ¬(mkRat 1 2 < Rat.divInt (count_type tiePages "broken") tiePages.length) ∧
    Rat.divInt (count_type tiePages "text") tiePages.length < mkRat 1 2 ∧
    Rat.divInt (count_type tiePages "image") tiePages.length < mkRat 1 2 ∧
    determine_pdf_type tiePages =
      (if count_type tiePages "image" < count_type tiePages "text" then "text" else "image") :=
  ⟨by decide, by decide, by decide, by decide, by decide,
   c1_mixed_split_amended tiePages (by decide) (by decide) (by decide) (by decide) (by decide)⟩

/-- C2 (counterexample): a page whose text "ab \uFFFD" has replacement ratio
1/3 ≥ 0.05 is garbled with reasons exactly ["replacement_hard"], yet because
it has an image and no legible text `_classify_page` labels it "image", not
the "broken" the claim demands for every such page. -/
theorem c2_replacement_counterexample :
    mkRat 5 100 ≤ repl_share "ab �" ∧
    (analyze_page ["ab"] "ab �" 1 1 0).garbled_reasons = ["replacement_hard"] ∧
    (analyze_page ["ab"] "ab �" 1 1 0).page_type = "image" ∧
    (analyze_page ["ab"] "ab �" 1 1 0).page_type ≠ "broken" := by decide

/-- C2 (amended): for every page whose text block is actually examined (the
zero-valid-words-with-images shortcut not taken) and is non-blank with
replacement-character ratio ≥ 0.05, the page is garbled with reasons exactly
["replacement_hard"], and its type is "broken" unless the page lacks
legible text and has at least one image, in which case it is "image". -/
theorem c2_replacement_hard_amended (raw_words : List String) (text : String) (image_count page_number : Nat)
    (cov : ℚ)
    (h1 : skips_text raw_words image_count = false)
    (h2 : stripList text.data ≠ [])
    (h3 : mkRat 5 100 ≤ repl_share text) :
    (analyze_page raw_words text image_count page_number cov).is_garbled = true ∧
    (analyze_page raw_words text image_count page_number cov).garbled_reasons =
      ["replacement_hard"] ∧
    (analyze_page raw_words text image_count page_number cov).page_type =
      (if (analyze_page raw_words text image_count page_number cov).has_text = false ∧
          0 < image_count then "image" else "broken") := by
  have he : eff_text raw_words text image_count = text := by
    rw [eff_text, h1]
    simp
  have hg : is_text_garbled (eff_text raw_words text image_count) raw_words
      (eff_char_count raw_words text image_count) (word_count_of raw_words)
      (eff_letter_ratio raw_words text image_count) = (true, ["replacement_hard"]) := by
    rw [he, is_text_garbled, if_neg h2, if_pos h3]
  refine ⟨?_, ?_, ?_⟩
  · simp [analyze_page, hg]
  · simp [analyze_page, hg]
  · simp only [analyze_page, hg, classify_page]
    cases hht : has_text_flag raw_words text image_count
    · rcases Nat.eq_zero_or_pos image_count with hic | hic
      · subst hic
        simp
      · simp [hic]
    · simp

/-- C2 witness: a page with five valid words, no image and replacement ratio
1/5 satisfies the amended rule (and lands on "broken"). -/
theorem c2_replacement_hard_witness :
    skips_text ["aa", "bb", "cc", "dd", "ee"] 0 = false ∧
    stripList ("aaaa �" : String).data ≠ [] ∧
    mkRat 5 100 ≤ repl_share "aaaa �" ∧
    ((analyze_page ["aa", "bb", "cc", "dd", "ee"] "aaaa �" 0 1 0).is_garbled = true ∧
     (analyze_page ["aa", "bb", "cc", "dd", "ee"] "aaaa �" 0 1 0).garbled_reasons =
       ["replacement_hard"] ∧
     (analyze_page ["aa", "bb", "cc", "dd", "ee"] "aaaa �" 0 1 0).page_type =
       (if (analyze_page ["aa", "bb", "cc", "dd", "ee"] "aaaa �" 0 1 0).has_text = false ∧
           0 < 0 then "image" else "broken")) :=
  ⟨by decide, by decide, by decide,
   c2_replacement_hard_amended ["aa", "bb", "cc", "dd", "ee"] "aaaa �" 0 1 0 (by decide) (by decide) (by decide)⟩

/-- C3 (counterexample): a page with no words, one image and an 80-letter
text block satisfies the claim's formula (char_count 80 ≥ 80, letter ratio 1
≥ 0.40) yet `_analyze_page` sets has_text to false, because the
zero-valid-words-with-images shortcut skips the text block entirely. -/
theorem c3_has_text_counterexample :
    word_count_of [] = 0 ∧ (0 : Nat) < 1 ∧
    claim_has_text [] (String.mk (List.replicate 80 'a')) = true ∧
    (analyze_page [] (String.mk (List.replicate 80 'a')) 1 1 0).has_text = false := by decide

/-- C3 (amended): `has_text` follows the claimed formula (word_count ≥ 5, or
char_count ≥ 80 and letter_ratio ≥ 0.40 over the stripped text block) except
on pages with zero valid words and at least one image, where text statistics
are skipped and has_text is false. -/
theorem c3_has_text_amended (raw_words : List String) (text : String) (image_count page_number : Nat)
    (cov : ℚ) :
    (analyze_page raw_words text image_count page_number cov).has_text =
      (if skips_text raw_words image_count = true then false
       else claim_has_text raw_words text) := by
  cases hsk : skips_text raw_words image_count
  · simp only [analyze_page, has_text_flag, claim_has_text, eff_char_count, eff_letter_ratio,
      hsk, Bool.false_eq_true, if_false]
  · have hwc : word_count_of raw_words = 0 := (of_decide_eq_true hsk).1
    simp only [analyze_page, has_text_flag, eff_char_count, eff_letter_ratio, hsk, if_true, hwc]
    simp

/-- C4 (counterexample): on a text with a chain of near-duplicate words
("abcdefg" ~ "abcdefh" ~ "abcdehh" with the outer pair dissimilar), the
greedy vote maps the first word to the second and — overwriting the earlier
assignment — the second to the third, so a second `normalize` pass changes
the output again: the normalizer is not idempotent. -/
theorem c4_idempotence_counterexample : ocr_normalize (ocr_normalize chainText) ≠ ocr_normalize chainText := by
  decide

/-- C4 (amended): `normalize` is idempotent on every text whose majority
vote leaves its word sequence unchanged (in particular whenever no two
distinct words are near-duplicates); with chains of near-matches the greedy
non-transitive clustering can keep changing the output. -/
theorem c4_idempotent_on_vote_fixed_points (t : String) (h : majorityVoteL (words_of t) = words_of t) :
    ocr_normalize (ocr_normalize t) = ocr_normalize t :=
  congrArg String.mk (normalizeList_idem t.data h)

/-- C4 witness: "ab cd" has mutually dissimilar words, its vote is the
identity, and normalize is idempotent on it. -/
theorem c4_idempotent_witness :
    majorityVoteL (words_of "ab cd") = words_of "ab cd" ∧
    ocr_normalize (ocr_normalize "ab cd") = ocr_normalize "ab cd" :=
  ⟨by decide, c4_idempotent_on_vote_fixed_points "ab cd" (by decide)⟩

/-- C5: the line-merge walk of `_merge_broken_lines` — every trimmed line of
length ≤ 2 buffered rather than emitted, the next longer line emitted with
the buffered content as a space-joined prefix, a trailing unflushed buffer
emitted as its own final line — equals the run-based description
`specMergeL` built from the claim's wording. -/
theorem c5_line_merge_spec (lines : List String) :
    merge_broken_lines lines = (specMergeL (lines.map String.data)).map String.mk := by
  rw [merge_broken_lines, mergeLinesList, mergeAuxL_eq_specFromL, specFromL_nil_buf]

/-- C6: every item `_parse_row` produces has confidence 0.95 exactly when
|quantity × unit_price − total_price| < 1 and confidence 0.85 otherwise;
no other confidence value ever occurs. -/
theorem c6_confidence_two_valued (row : List OCRToken) (page_width : ℚ)
    (item : InvoiceItem) (h : parse_row row page_width = some item) :
    (item.confidence = 95 / 100 ↔
      |(item.quantity : ℚ) * item.unit_price - item.total_price| < 1) ∧
    (item.confidence = 95 / 100 ∨ item.confidence = 85 / 100) := by
  simp only [parse_row] at h
  split at h
  · exact absurd h (by simp)
  · split at h
    · exact absurd h (by simp)
    · split at h
      · exact absurd h (by simp)
      · rw [Option.some.injEq] at h
        subst h
        rw [← ratAbs_eq_abs, ← ratSub_eq_sub, ← ratMul_eq_mul]
        constructor
        · constructor
          · intro hc
            by_contra hlt
            rw [if_neg hlt] at hc
            norm_num [mkRat] at hc
          · intro hlt
            rw [if_pos hlt]
            norm_num [mkRat]
        · by_cases hlt : ratAbs (ratSub (ratMul
              ((safe_number_int (row_buckets row page_width).qty 1 : ℤ) : ℚ)
              (safe_number_rat (row_buckets row page_width).unit 0))
              (safe_number_rat (row_buckets row page_width).total 0)) < 1
          · left
            rw [if_pos hlt]
            norm_num [mkRat]
          · right
            rw [if_neg hlt]
            norm_num [mkRat]

/-- C8: any row whose lower-cased joined text contains a header keyword is
discarded by `_parse_row` before any numeric validation. -/
theorem c8_header_row_dropped (row : List OCRToken) (page_width : ℚ)
    (h : HEADER_KEYWORDS.any (fun k => isSubstr k.data (row_text_joined row)) = true) :
    parse_row row page_width = none := by
  rw [parse_row, if_pos h]

/-- C8 witness: a row containing "KDV" whose numeric fields would otherwise
validate is dropped. -/
theorem c8_header_row_witness :
    HEADER_KEYWORDS.any (fun k => isSubstr k.data (row_text_joined kdvRow)) = true ∧
    parse_row kdvRow 100 = none :=
  ⟨by decide, c8_header_row_dropped kdvRow 100 (by decide)⟩

/-- C9: in every document analysis the confidence equals the fraction of
pages whose type matches the document type, except that it is exactly 0 when
the document type is "broken"; a zero-page document is "broken" with
confidence 0. -/
theorem c9_confidence_invariant (inputs : List PageInput) :
    (analyze_document inputs).confidence =
      (if (analyze_document inputs).pdf_type = "broken" then 0
       else (count_type (analyze_document inputs).pages (analyze_document inputs).pdf_type : ℚ) /
         ((analyze_document inputs).page_count : ℚ)) ∧
    (analyze_document []).pdf_type = "broken" ∧
    (analyze_document []).confidence = 0 := by
  refine ⟨?_, by decide, by decide⟩
  simp only [analyze_document, calculate_confidence]
  split
  · rfl
  · rw [Rat.divInt_eq_div]
    push_cast
    rfl

/-- C10: when the quantity bucket's first numeric match contains a decimal
separator, the `int` cast fails, the failure is swallowed and the quantity
resolves to the default 1, which passes the positivity check — so any item
the row produces carries quantity 1 instead of the fractional value. -/
theorem c10_fractional_quantity_default (row : List OCRToken) (page_width : ℚ) (s : List Char)
    (item : InvoiceItem)
    (h1 : first_num_of (qty_bucket row page_width) = some s)
    (h2 : s.any (fun c => c == '.' || c == ',') = true)
    (h3 : parse_row row page_width = some item) :
    safe_number_int (qty_bucket row page_width) 1 = 1 ∧ item.quantity = 1 := by
  have hq : safe_number_int (qty_bucket row page_width) 1 = 1 :=
    safe_number_int_of_sep _ s 1 h1 h2
  refine ⟨hq, ?_⟩
  rw [qty_bucket] at hq
  simp only [parse_row] at h3
  split at h3
  · exact absurd h3 (by simp)
  · split at h3
    · exact absurd h3 (by simp)
    · split at h3
      · exact absurd h3 (by simp)
      · rw [Option.some.injEq] at h3
        subst h3
        simpa using hq
/-- C7: the specification's round-trip row — "Widget", "3", "10.00", "30.00"
at center ratios 0.1, 0.4, 0.6, 0.9 of a width-100 page — parses to exactly
one item: description "Widget", quantity 3, unit price 10, total 30,
confidence 0.95. -/
theorem c7_round_trip :
    parse roundTripTokens 100 = [⟨"Widget", 3, 10, 30, mkRat 95 100⟩] := by decide

/-- C6 witness: the round-trip row parses to an item whose confidence obeys
the two-valued rule. -/
theorem c6_confidence_witness :
    parse_row roundTripTokens 100 = some ⟨"Widget", 3, 10, 30, mkRat 95 100⟩ ∧
    (((⟨"Widget", 3, 10, 30, mkRat 95 100⟩ : InvoiceItem).confidence = 95 / 100 ↔
      |((⟨"Widget", 3, 10, 30, mkRat 95 100⟩ : InvoiceItem).quantity : ℚ) *
          (⟨"Widget", 3, 10, 30, mkRat 95 100⟩ : InvoiceItem).unit_price -
          (⟨"Widget", 3, 10, 30, mkRat 95 100⟩ : InvoiceItem).total_price| < 1) ∧
     ((⟨"Widget", 3, 10, 30, mkRat 95 100⟩ : InvoiceItem).confidence = 95 / 100 ∨
      (⟨"Widget", 3, 10, 30, mkRat 95 100⟩ : InvoiceItem).confidence = 85 / 100)) :=
  ⟨by decide, c6_confidence_two_valued roundTripTokens 100 _ (by decide)⟩

/-- C10 witness: a row whose quantity cell reads "2,5" is emitted with
quantity 1. -/
theorem c10_fractional_quantity_witness :
    first_num_of (qty_bucket fractionalQtyRow 100) = some ['2', ',', '5'] ∧
    (['2', ',', '5'].any (fun c => c == '.' || c == ',') = true) ∧
    parse_row fractionalQtyRow 100 = some ⟨"Thing", 1, 10, 25, mkRat 85 100⟩ ∧
    (safe_number_int (qty_bucket fractionalQtyRow 100) 1 = 1 ∧
     (⟨"Thing", 1, 10, 25, mkRat 85 100⟩ : InvoiceItem).quantity = 1) :=
  ⟨by decide, by decide, by decide,
   c10_fractional_quantity_default fractionalQtyRow 100 ['2', ',', '5'] _
     (by decide) (by decide) (by decide)⟩
